import Mathlib

/-!
# Verification of the goldmine-connect relay client

Shallow embedding of the two Go client variants found in the repository
(the kingpin-based variant and the flag-based variant, both in `main.go`):
the rlogin handshake encoders, the two pump goroutines (`readInputData`,
`readServerData`), and the `ProcessData` event loop, modelled as an explicit
step function over a session state, driven by a timed event trace.
-/

/-- Mirror of the Go `CommandLine` struct (both variants share the field
layout): `xtrn` is a pointer in Go, hence an `Option` here; `timeout` is a
duration, carried in milliseconds. -/
structure CommandLine where
  host : String
  port : Nat
  name : String
  tag : String
  xtrn : Option String
  timeout : Nat
deriving Repr, DecidableEq

/-- The NUL byte used as the rlogin field delimiter (`"\x00"` in the Go
format strings). -/
def nulChar : Char := Char.ofNat 0

/-- The bracketed field shared by both variants:
`fmt.Sprintf("[%s]%s", tag, remoteUsername)` where `remoteUsername` is
`options.Name()`. -/
def bracketField (o : CommandLine) : List Char :=
  '[' :: (o.tag.data ++ ']' :: o.name.data)

/-- The Go format string `"\x00%s\x00[%s]%s\x00"` applied to
(localUsername, tag, remoteUsername), as a byte (char) list. -/
def handshakeBase (localUsername : String) (o : CommandLine) : List Char :=
  [nulChar] ++ localUsername.data ++ [nulChar] ++ bracketField o ++ [nulChar]

/-- The Go guard `options.Xtrn() != nil && *options.Xtrn() != ""`. -/
def xtrnProvided (o : CommandLine) : Bool :=
  match o.xtrn with
  | some code => code != ""
  | none => false

/-- Handshake of the first (kingpin-based) client variant: the local
username field is the hardcoded placeholder `"local_username"`, and the
`xtrn=` segment is appended only when the xtrn option is non-nil and
non-empty; nothing is appended otherwise. -/
def handshake1 (o : CommandLine) : List Char :=
  let base := handshakeBase "local_username" o
  match o.xtrn with
  | some code =>
      if code != "" then base ++ ("xtrn=".data ++ code.data ++ [nulChar])
      else base
  | none => base

/-- Handshake of the second (flag-based) client variant: the local username
field is the empty string, and when the xtrn option is absent or empty an
extra NUL is appended for the empty terminal-type field. -/
def handshake2 (o : CommandLine) : List Char :=
  let base := handshakeBase "" o
  match o.xtrn with
  | some code =>
      if code != "" then base ++ ("xtrn=".data ++ code.data ++ [nulChar])
      else base ++ [nulChar]
  | none => base ++ [nulChar]

/-!
## The `ProcessData` event loop

`ProcessData` (both variants) runs a `select` loop over five channel events:
outbound data from the input pump, the end-of-input signal, inbound data from
the server pump, the inactivity ticker, and the disconnect signal.  We model
one loop execution as a fold of a step function over a finite timed event
trace (times in milliseconds).  The outcome of each connection write is part
of the event (the environment decides whether a TCP write succeeds).

The ticker (`time.NewTicker(t.responseTimeout)`) is created when the loop
starts and is re-created (reset) only in the `response` case while
`afterEOFMode` is set; it can therefore deliver a tick at any time
`tickerStart + k * T` (`k ≥ 1`).  A trace is *invalid* (physically
impossible) if its times decrease or if a tick event lies off the ticker
schedule; the step function rejects such traces explicitly.
-/

/-- Events merged by the `select` statement of `ProcessData`.  A `request`
carries the chunk received from `requestDataChannel` together with the
success of the subsequent `connection.Write`; `done` is the end-of-input
signal; `response` is a chunk from `responseDataChannel`; `tick` is a
delivery of `afterEOFResponseTicker.C`; `disconnect` is the server
disconnection signal. -/
inductive Ev
  | request (chunk : List Char) (writeOk : Bool)
  | done
  | response (chunk : List Char)
  | tick
  | disconnect
deriving Repr, DecidableEq

/-- The mutable state of one `ProcessData` loop: the two Go flags
(`afterEOFMode`, `somethingRead`, and — in the flag-based variant —
`closing`), the creation time of the current ticker, the current time
(time of the last processed event), and the chunks written so far to the
connection and to local output. -/
structure St where
  afterEOFMode : Bool
  somethingRead : Bool
  closing : Bool
  tickerStart : Nat
  now : Nat
  writes : List (List Char)
  outputs : List (List Char)
deriving Repr, DecidableEq

/-- State at loop entry: both flags false, ticker created at time 0,
nothing written yet. -/
def initSt : St :=
  ⟨false, false, false, 0, 0, [], []⟩

/-- The ways a `ProcessData` loop can return. -/
inductive Exit
  | writeError
  | inactivityTimeout
  | serverDisconnected
  | closingWrite
  | closingRead
deriving Repr, DecidableEq

/-- Result of running the loop on a trace: still looping, returned at a
given time with a given reason, or the trace was physically impossible. -/
inductive Outcome
  | running (s : St)
  | exited (e : Exit) (s : St) (t : Nat)
  | invalid
deriving Repr, DecidableEq

/-- A tick at time `t` is on the schedule of the current ticker: at least
one full period after the ticker was created, and a whole number of periods
after it. -/
def tickValid (T : Nat) (s : St) (t : Nat) : Bool :=
  decide (s.tickerStart + T ≤ t) && decide ((t - s.tickerStart) % T = 0)

/-- One iteration of the first (kingpin-based) variant's `select` loop. -/
def step1 (T : Nat) (s : St) : Nat × Ev → Outcome
  | (t, e) =>
    if t < s.now then .invalid else
    let s := { s with now := t }
    match e with
    | .request c writeOk =>
        if writeOk then .running { s with writes := s.writes ++ [c] }
        else .exited .writeError s t
    | .done => .running { s with afterEOFMode := true }
    | .response c =>
        let s2 := { s with outputs := s.outputs ++ [c], somethingRead := true }
        .running (if s2.afterEOFMode then { s2 with tickerStart := t } else s2)
    | .tick =>
        if tickValid T s t then
          if s.afterEOFMode && !s.somethingRead then .exited .inactivityTimeout s t
          else .running s
        else .invalid
    | .disconnect => .exited .serverDisconnected s t

/-- One iteration of the second (flag-based) variant's `select` loop: same
as `step1` except that the `closing` flag is set alongside `afterEOFMode`
and that outbound/inbound chunks arriving while `closing` is set make the
loop return immediately (`closingWrite` / `closingRead`). -/
def step2 (T : Nat) (s : St) : Nat × Ev → Outcome
  | (t, e) =>
    if t < s.now then .invalid else
    let s := { s with now := t }
    match e with
    | .request c writeOk =>
        if s.closing then .exited .closingWrite s t
        else if writeOk then .running { s with writes := s.writes ++ [c] }
        else .exited .writeError s t
    | .done => .running { s with afterEOFMode := true, closing := true }
    | .response c =>
        if s.closing then .exited .closingRead s t
        else
          let s2 := { s with outputs := s.outputs ++ [c], somethingRead := true }
          .running (if s2.afterEOFMode then { s2 with tickerStart := t } else s2)
    | .tick =>
        if tickValid T s t then
          if s.afterEOFMode && !s.somethingRead then .exited .inactivityTimeout s t
          else .running s
        else .invalid
    | .disconnect => .exited .serverDisconnected s t

/-- Fold a step function over a timed event trace, stopping at the first
exit (or invalid event). -/
def runLoop (step : St → Nat × Ev → Outcome) : St → List (Nat × Ev) → Outcome
  | s, [] => .running s
  | s, ev :: rest =>
    match step s ev with
    | .running s2 => runLoop step s2 rest
    | out => out

/-- The event loop of the first (kingpin-based) `ProcessData`. -/
def run1 (T : Nat) : St → List (Nat × Ev) → Outcome :=
  runLoop (step1 T)

/-- The event loop of the second (flag-based) `ProcessData`. -/
def run2 (T : Nat) : St → List (Nat × Ev) → Outcome :=
  runLoop (step2 T)

/-!
## The pump goroutines

`readInputData` and `readServerData` each loop over blocking reads on their
endpoint.  A read either yields a chunk (`buffer[:n]`), hits end of stream
(`io.EOF`), or fails with some other error.  We model the sequence of read
results as a list and each pump as the list of externally visible actions it
performs.  The action vocabulary deliberately contains a `closeConn`
constructor so that "the pumps never close the connection" is a statement
about the model rather than about its type: neither pump's translation ever
emits it, because neither Go function contains a `connection.Close()` call.
-/

/-- Result of one blocking read on an endpoint. -/
inductive ReadResult
  | chunk (data : List Char)
  | eofRead
  | errRead
deriving Repr, DecidableEq

/-- Externally visible actions of a pump goroutine. -/
inductive PumpAct
  | sendChunk (c : List Char)
  | signalDone
  | fatalLog
  | emitChunk (c : List Char)
  | signalDisconnect
  | closeConn
deriving Repr, DecidableEq

/-- The input pump (`readInputData`, identical in both variants): forward
each chunk to `requestDataChannel`; on `io.EOF`, send the end-of-input
signal once and return; on any other read error, call `log.Fatalf`
(which terminates the whole process). -/
def readInputData : List ReadResult → List PumpAct
  | [] => []
  | .chunk c :: rest => .sendChunk c :: readInputData rest
  | .eofRead :: _ => [.signalDone]
  | .errRead :: _ => [.fatalLog]

/-- The server pump (`readServerData`, both variants): forward each chunk
to `responseDataChannel`; on `io.EOF` or any other read error, send the
disconnect signal once and return.  (The two variants differ only in which
channels they `close` on the way out, which has no bearing on the claims.) -/
def readServerData : List ReadResult → List PumpAct
  | [] => []
  | .chunk c :: rest => .emitChunk c :: readServerData rest
  | .eofRead :: _ => [.signalDisconnect]
  | .errRead :: _ => [.signalDisconnect]

/-- The chunks an action list delivers to `requestDataChannel`. -/
def sentChunks : List PumpAct → List (List Char)
  | [] => []
  | .sendChunk c :: rest => c :: sentChunks rest
  | .signalDone :: rest => sentChunks rest
  | .fatalLog :: rest => sentChunks rest
  | .emitChunk _ :: rest => sentChunks rest
  | .signalDisconnect :: rest => sentChunks rest
  | .closeConn :: rest => sentChunks rest

/-- The chunks a trace delivers to the loop's `request` case, in order. -/
def requestChunks : List (Nat × Ev) → List (List Char)
  | [] => []
  | (_, .request c _) :: rest => c :: requestChunks rest
  | (_, .done) :: rest => requestChunks rest
  | (_, .response _) :: rest => requestChunks rest
  | (_, .tick) :: rest => requestChunks rest
  | (_, .disconnect) :: rest => requestChunks rest

/-- Every connection write occurring in the trace succeeds. -/
def requestsOk : List (Nat × Ev) → Bool
  | [] => true
  | (_, .request _ writeOk) :: rest => writeOk && requestsOk rest
  | (_, .done) :: rest => requestsOk rest
  | (_, .response _) :: rest => requestsOk rest
  | (_, .tick) :: rest => requestsOk rest
  | (_, .disconnect) :: rest => requestsOk rest

/-!
## `ProcessData` including handshake and deferred close

`ProcessData` registers `defer connection.Close()` right after dialing, then
writes the handshake.  Go's `log.Fatalf` calls `os.Exit`, which terminates
the process *without* running deferred functions; a plain `return` runs
them.  The wrapper below records how many times the orchestrator's deferred
`connection.Close()` ran and whether the event loop was ever entered.  The
success of the handshake write is an environment parameter, like the write
outcomes inside the loop.
-/

/-- Result of a whole `ProcessData` call. -/
inductive ProcOutcome
  | fatalExit (closes : Nat) (loopEntered : Bool)
  | finished (e : Exit) (closes : Nat) (s : St) (t : Nat)
  | active (s : St)
  | badTrace
deriving Repr, DecidableEq

/-- The whole `ProcessData` call of the first (kingpin-based) variant, after a successful
dial: write `handshake1`, and on failure `log.Fatalf` (process exit, the
deferred close does not run); otherwise run the event loop, and when it
returns the deferred `connection.Close()` runs exactly once. -/
def processData1 (T : Nat) (hsWriteOk : Bool) (es : List (Nat × Ev)) : ProcOutcome :=
  if !hsWriteOk then .fatalExit 0 false
  else
    match run1 T initSt es with
    | .running s => .active s
    | .exited e s t => .finished e 1 s t
    | .invalid => .badTrace

/-- The whole `ProcessData` call of the second (flag-based) variant; identical shape, with
`handshake2` and the `closing`-aware loop. -/
def processData2 (T : Nat) (hsWriteOk : Bool) (es : List (Nat × Ev)) : ProcOutcome :=
  if !hsWriteOk then .fatalExit 0 false
  else
    match run2 T initSt es with
    | .running s => .active s
    | .exited e s t => .finished e 1 s t
    | .invalid => .badTrace

/-- How many times the orchestrator's deferred `connection.Close()` ran. -/
def closesOf : ProcOutcome → Nat
  | .fatalExit c _ => c
  | .finished _ c _ _ => c
  | .active _ => 0
  | .badTrace => 0

/-!
## NUL-delimited field structure of the handshake

The rlogin handshake is a NUL-delimited field sequence; to state claims
about "the xtrn field" we split a payload at NUL bytes and test whether a
field starts with the literal `xtrn=`.
-/

/-- Split a byte list at NUL delimiters (like splitting a string on
`"\x00"`): `splitOnNul [a, NUL, b] = [[a], [b]]`. -/
def splitOnNul : List Char → List (List Char)
  | [] => [[]]
  | c :: rest =>
    if c = nulChar then [] :: splitOnNul rest
    else
      match splitOnNul rest with
      | [] => [[c]]
      | f :: fs => (c :: f) :: fs

/-- A field carries the xtrn code when it starts with the literal
`xtrn=`. -/
def startsWithXtrn (l : List Char) : Bool :=
  l.take 5 == ['x', 't', 'r', 'n', '=']

/-- The payload contains an xtrn field. -/
def hasXtrnField (payload : List Char) : Bool :=
  (splitOnNul payload).any startsWithXtrn

/-!
## Helper lemmas about the handshake encoders
-/

theorem splitOnNul_nul_cons (r : List Char) :
    splitOnNul (nulChar :: r) = [] :: splitOnNul r := by
  simp [splitOnNul]

theorem splitOnNul_append (a r : List Char) (h : nulChar ∉ a) :
    splitOnNul (a ++ nulChar :: r) = a :: splitOnNul r := by
  induction a with
  | nil => simp [splitOnNul]
  | cons c a ih =>
    rw [List.mem_cons] at h
    push_neg at h
    obtain ⟨h1, h2⟩ := h
    have hc : ¬ (c = nulChar) := fun hh => h1 hh.symm
    simp only [List.cons_append, splitOnNul, if_neg hc]
    simp only [List.append_eq]
    rw [ih h2]

theorem nul_not_mem_bracketField (o : CommandLine)
    (htag : nulChar ∉ o.tag.data) (hname : nulChar ∉ o.name.data) :
    nulChar ∉ bracketField o := by
  intro hm
  simp only [bracketField, List.mem_cons, List.mem_append] at hm
  rcases hm with h | h | h | h
  · exact absurd h (by decide)
  · exact htag h
  · exact absurd h (by decide)
  · exact hname h

theorem splitOnNul_handshakeBase (lu : String) (o : CommandLine) (tail : List Char)
    (hlu : nulChar ∉ lu.data) (htag : nulChar ∉ o.tag.data) (hname : nulChar ∉ o.name.data) :
    splitOnNul (handshakeBase lu o ++ tail) =
      [] :: lu.data :: bracketField o :: splitOnNul tail := by
  have hbr := nul_not_mem_bracketField o htag hname
  have hshape : handshakeBase lu o ++ tail =
      nulChar :: (lu.data ++ nulChar :: (bracketField o ++ nulChar :: tail)) := by
    simp [handshakeBase]
  rw [hshape, splitOnNul_nul_cons, splitOnNul_append _ _ hlu, splitOnNul_append _ _ hbr]

theorem startsWithXtrn_nil : startsWithXtrn [] = false := rfl

theorem startsWithXtrn_cons_ne (c : Char) (l : List Char) (h : (c == 'x') = false) :
    startsWithXtrn (c :: l) = false := by
  show (c :: l.take 4 == ['x', 't', 'r', 'n', '=']) = false
  show (c == 'x' && (l.take 4 == ['t', 'r', 'n', '='])) = false
  rw [h, Bool.false_and]

theorem startsWithXtrn_bracketField (o : CommandLine) :
    startsWithXtrn (bracketField o) = false :=
  startsWithXtrn_cons_ne '[' _ (by decide)

theorem startsWithXtrn_xtrnChunk (cd : List Char) :
    startsWithXtrn ('x' :: 't' :: 'r' :: 'n' :: '=' :: cd) = true := by
  show (('x' :: 't' :: 'r' :: 'n' :: '=' :: cd).take 5 == ['x', 't', 'r', 'n', '=']) = true
  simp [List.take_succ_cons]

theorem handshake1_noXtrn (o : CommandLine) (h : xtrnProvided o = false) :
    handshake1 o = handshakeBase "local_username" o := by
  cases hox : o.xtrn with
  | none => simp [handshake1, hox]
  | some c =>
    simp only [xtrnProvided, hox] at h
    simp [handshake1, hox, h]

theorem handshake2_noXtrn (o : CommandLine) (h : xtrnProvided o = false) :
    handshake2 o = handshakeBase "" o ++ [nulChar] := by
  cases hox : o.xtrn with
  | none => simp [handshake2, hox]
  | some c =>
    simp only [xtrnProvided, hox] at h
    simp [handshake2, hox, h]

theorem handshake1_withXtrn (o : CommandLine) (c : String)
    (hox : o.xtrn = some c) (hc : (c != "") = true) :
    handshake1 o = handshakeBase "local_username" o ++ ("xtrn=".data ++ c.data ++ [nulChar]) := by
  simp [handshake1, hox, hc]

theorem handshake2_withXtrn (o : CommandLine) (c : String)
    (hox : o.xtrn = some c) (hc : (c != "") = true) :
    handshake2 o = handshakeBase "" o ++ ("xtrn=".data ++ c.data ++ [nulChar]) := by
  simp [handshake2, hox, hc]

theorem splitOnNul_xtrnTail (c : String) (hxc : nulChar ∉ c.data) :
    splitOnNul ("xtrn=".data ++ c.data ++ [nulChar]) =
      [('x' :: 't' :: 'r' :: 'n' :: '=' :: c.data), []] := by
  have hx5 : "xtrn=".data = ['x', 't', 'r', 'n', '='] := rfl
  have hshape : "xtrn=".data ++ c.data ++ [nulChar] =
      ('x' :: 't' :: 'r' :: 'n' :: '=' :: c.data) ++ nulChar :: [] := by
    rw [hx5]; simp
  rw [hshape, splitOnNul_append]
  · rfl
  · intro hm
    simp only [List.mem_cons] at hm
    rcases hm with h | h | h | h | h | h
    · exact absurd h (by decide)
    · exact absurd h (by decide)
    · exact absurd h (by decide)
    · exact absurd h (by decide)
    · exact absurd h (by decide)
    · exact hxc h

/-!
## Claims about the handshake encoders (C1, C6, C9)
-/

/-- C1 counterexample: for the config `host "example.com", port 2513,
name "bob", tag "ABC", empty xtrn`, neither client variant produces the
claimed bytes `NUL, "bob", NUL, "[ABC]bob", NUL, NUL` — the local display
name from the config never appears as the first field. -/
theorem c1_counterexample :
    handshake1 ⟨"example.com", 2513, "bob", "ABC", some "", 1000⟩ ≠
      ([nulChar] ++ "bob".data ++ [nulChar] ++ "[ABC]bob".data ++ [nulChar, nulChar]) ∧
    handshake2 ⟨"example.com", 2513, "bob", "ABC", some "", 1000⟩ ≠
      ([nulChar] ++ "bob".data ++ [nulChar] ++ "[ABC]bob".data ++ [nulChar, nulChar]) := by
  decide

/-- C1 (amended): for the config `name "bob", tag "ABC", empty xtrn`, the
kingpin-based variant emits `NUL, "local_username", NUL, "[ABC]bob", NUL`
(hardcoded placeholder in the local-username field, no trailing NUL), and
the flag-based variant emits `NUL, NUL, "[ABC]bob", NUL, NUL` (empty
local-username field, trailing NUL for the empty terminal-type field);
neither takes the local display name from the config. -/
theorem c1_amended_thm :
    handshake1 ⟨"example.com", 2513, "bob", "ABC", some "", 1000⟩ =
      [nulChar] ++ "local_username".data ++ [nulChar] ++ "[ABC]bob".data ++ [nulChar] ∧
    handshake2 ⟨"example.com", 2513, "bob", "ABC", some "", 1000⟩ =
      [nulChar, nulChar] ++ "[ABC]bob".data ++ [nulChar, nulChar] := by
  decide

/-- C6: for every config whose name, tag, and door code contain no NUL
byte, the handshake payload of either variant contains an xtrn field
(a NUL-delimited field starting with the literal `xtrn=`) if and only if
the door code is present and non-empty; moreover an absent door code and
an empty-string door code yield identical payloads. -/
theorem c6_xtrn_iff (o : CommandLine)
    (hname : nulChar ∉ o.name.data) (htag : nulChar ∉ o.tag.data)
    (hx : ∀ c, o.xtrn = some c → nulChar ∉ c.data) :
    (hasXtrnField (handshake1 o) = xtrnProvided o ∧
     hasXtrnField (handshake2 o) = xtrnProvided o) ∧
    (handshake1 { o with xtrn := none } = handshake1 { o with xtrn := some "" } ∧
     handshake2 { o with xtrn := none } = handshake2 { o with xtrn := some "" }) := by
  have hlu1 : nulChar ∉ "local_username".data := by decide
  have hlu2 : nulChar ∉ "".data := by decide
  have hsw1 : startsWithXtrn "local_username".data = false := by decide
  have hsw2 : startsWithXtrn ("".data) = false := by decide
  constructor
  · by_cases hp : xtrnProvided o = true
    · obtain ⟨c, hox, hc⟩ : ∃ c, o.xtrn = some c ∧ (c != "") = true := by
        cases hox : o.xtrn with
        | none => rw [xtrnProvided, hox] at hp; exact absurd hp (by decide)
        | some c => exact ⟨c, rfl, by rw [xtrnProvided, hox] at hp; exact hp⟩
      have hxc := hx c hox
      rw [hp, handshake1_withXtrn o c hox hc, handshake2_withXtrn o c hox hc]
      unfold hasXtrnField
      rw [splitOnNul_handshakeBase _ o _ hlu1 htag hname,
          splitOnNul_handshakeBase _ o _ hlu2 htag hname,
          splitOnNul_xtrnTail c hxc]
      simp [startsWithXtrn_nil, hsw1, hsw2, startsWithXtrn_bracketField,
            startsWithXtrn_xtrnChunk]
    · have hp2 : xtrnProvided o = false := by
        cases hh : xtrnProvided o
        · rfl
        · exact absurd hh hp
      rw [hp2, handshake1_noXtrn o hp2, handshake2_noXtrn o hp2]
      unfold hasXtrnField
      have e1 : handshakeBase "local_username" o = handshakeBase "local_username" o ++ [] :=
        (List.append_nil _).symm
      rw [e1, splitOnNul_handshakeBase _ o _ hlu1 htag hname]
      have e2 : handshakeBase "" o ++ [nulChar] = handshakeBase "" o ++ (nulChar :: []) := rfl
      rw [e2, splitOnNul_handshakeBase _ o _ hlu2 htag hname, splitOnNul_nul_cons]
      simp [startsWithXtrn_nil, hsw1, hsw2, startsWithXtrn_bracketField, splitOnNul]
  · constructor
    · rfl
    · rfl

/-- C6 witness: a concrete config with door code `"MRC"` has the xtrn field
in both variants' payloads; one with an empty door code does not. -/
theorem c6_xtrn_iff_witness :
    nulChar ∉ "bob".data ∧
    (hasXtrnField (handshake1 ⟨"h", 1, "bob", "ABC", some "MRC", 1000⟩) =
        xtrnProvided ⟨"h", 1, "bob", "ABC", some "MRC", 1000⟩ ∧
     hasXtrnField (handshake2 ⟨"h", 1, "bob", "ABC", some "MRC", 1000⟩) =
        xtrnProvided ⟨"h", 1, "bob", "ABC", some "MRC", 1000⟩) :=
  ⟨by decide,
   (c6_xtrn_iff ⟨"h", 1, "bob", "ABC", some "MRC", 1000⟩ (by decide) (by decide)
      (fun c hc => by injection hc with h; rw [← h]; decide)).1⟩

/-- C9: for every config with an absent or empty door code, the two
variants' payloads differ: the kingpin-based variant fills the
local-username field with the placeholder `"local_username"` and omits the
trailing NUL of the empty terminal-type field, while the flag-based variant
leaves the local-username field empty and appends that terminal NUL. -/
theorem c9_layouts_differ (o : CommandLine) (h : xtrnProvided o = false) :
    handshake1 o = [nulChar] ++ "local_username".data ++ [nulChar] ++ bracketField o ++ [nulChar] ∧
    handshake2 o = [nulChar] ++ "".data ++ [nulChar] ++ bracketField o ++ [nulChar] ++ [nulChar] ∧
    handshake1 o ≠ handshake2 o := by
  have e1 : handshake1 o = [nulChar] ++ "local_username".data ++ [nulChar] ++
      bracketField o ++ [nulChar] := handshake1_noXtrn o h
  have e2 : handshake2 o = [nulChar] ++ "".data ++ [nulChar] ++
      bracketField o ++ [nulChar] ++ [nulChar] := handshake2_noXtrn o h
  refine ⟨e1, e2, ?_⟩
  intro heq
  rw [e1, e2] at heq
  have h2 := congrArg (fun l => List.get? l 1) heq
  have h3 : (some 'l' : Option Char) = some nulChar := h2
  exact absurd h3 (by decide)

/-- C9 witness: the two variants' payloads for a concrete empty-xtrn
config. -/
theorem c9_layouts_differ_witness :
    xtrnProvided ⟨"h", 1, "bob", "ABC", none, 1000⟩ = false ∧
    handshake1 ⟨"h", 1, "bob", "ABC", none, 1000⟩ ≠
      handshake2 ⟨"h", 1, "bob", "ABC", none, 1000⟩ :=
  ⟨by decide, (c9_layouts_differ ⟨"h", 1, "bob", "ABC", none, 1000⟩ (by decide)).2.2⟩


/-!
## Byte fidelity of the outbound path (C2)
-/

theorem run1_writes (T : Nat) :
    ∀ (es : List (Nat × Ev)) (s s2 : St), requestsOk es = true →
      run1 T s es = Outcome.running s2 →
      s2.writes = s.writes ++ requestChunks es := by
  intro es
  induction es with
  | nil =>
    intro s s2 hok hrun
    simp only [run1, runLoop] at hrun
    injection hrun with h
    simp [requestChunks, h]
  | cons ev rest ih =>
    obtain ⟨t, e⟩ := ev
    intro s s2 hok hrun
    obtain ⟨aem, sr, cl, ts, n, w, outs⟩ := s
    simp only [run1, runLoop] at hrun
    by_cases ht : t < n
    · simp [step1, if_pos ht] at hrun
    · cases e with
      | request c wOk =>
        rw [requestsOk] at hok
        cases wOk with
        | false => simp at hok
        | true =>
          rw [Bool.true_and] at hok
          simp only [step1, if_neg ht] at hrun
          simp at hrun
          have hres := ih _ _ hok hrun
          rw [requestChunks, hres]
          simp
      | done =>
        rw [requestsOk] at hok
        simp only [step1, if_neg ht] at hrun
        have hres := ih _ _ hok hrun
        rw [requestChunks, hres]
      | response c =>
        rw [requestsOk] at hok
        cases aem with
        | true =>
          simp only [step1, if_neg ht] at hrun
          simp at hrun
          have hres := ih _ _ hok hrun
          rw [requestChunks, hres]
        | false =>
          simp only [step1, if_neg ht] at hrun
          simp at hrun
          have hres := ih _ _ hok hrun
          rw [requestChunks, hres]
      | tick =>
        rw [requestsOk] at hok
        by_cases htv : tickValid T ⟨aem, sr, cl, ts, t, w, outs⟩ t = true
        · cases aem with
          | true =>
            cases sr with
            | false =>
              simp [step1, if_neg ht, htv] at hrun
            | true =>
              simp only [step1, if_neg ht, htv] at hrun
              simp at hrun
              have hres := ih _ _ hok hrun
              rw [requestChunks, hres]
          | false =>
            simp only [step1, if_neg ht, htv] at hrun
            simp at hrun
            have hres := ih _ _ hok hrun
            rw [requestChunks, hres]
        · simp [step1, if_neg ht, htv] at hrun
      | disconnect =>
        simp [step1, if_neg ht] at hrun

theorem run2_writes (T : Nat) :
    ∀ (es : List (Nat × Ev)) (s s2 : St), requestsOk es = true →
      run2 T s es = Outcome.running s2 →
      s2.writes = s.writes ++ requestChunks es := by
  intro es
  induction es with
  | nil =>
    intro s s2 hok hrun
    simp only [run2, runLoop] at hrun
    injection hrun with h
    simp [requestChunks, h]
  | cons ev rest ih =>
    obtain ⟨t, e⟩ := ev
    intro s s2 hok hrun
    obtain ⟨aem, sr, cl, ts, n, w, outs⟩ := s
    simp only [run2, runLoop] at hrun
    by_cases ht : t < n
    · simp [step2, if_pos ht] at hrun
    · cases e with
      | request c wOk =>
        rw [requestsOk] at hok
        cases cl with
        | true =>
          simp [step2, if_neg ht] at hrun
        | false =>
          cases wOk with
          | false => simp at hok
          | true =>
            rw [Bool.true_and] at hok
            simp only [step2, if_neg ht] at hrun
            simp at hrun
            have hres := ih _ _ hok hrun
            rw [requestChunks, hres]
            simp
      | done =>
        rw [requestsOk] at hok
        simp only [step2, if_neg ht] at hrun
        have hres := ih _ _ hok hrun
        rw [requestChunks, hres]
      | response c =>
        rw [requestsOk] at hok
        cases cl with
        | true =>
          simp [step2, if_neg ht] at hrun
        | false =>
          cases aem with
          | true =>
            simp only [step2, if_neg ht] at hrun
            simp at hrun
            have hres := ih _ _ hok hrun
            rw [requestChunks, hres]
          | false =>
            simp only [step2, if_neg ht] at hrun
            simp at hrun
            have hres := ih _ _ hok hrun
            rw [requestChunks, hres]
      | tick =>
        rw [requestsOk] at hok
        by_cases htv : tickValid T ⟨aem, sr, cl, ts, t, w, outs⟩ t = true
        · cases aem with
          | true =>
            cases sr with
            | false =>
              simp [step2, if_neg ht, htv] at hrun
            | true =>
              simp only [step2, if_neg ht, htv] at hrun
              simp at hrun
              have hres := ih _ _ hok hrun
              rw [requestChunks, hres]
          | false =>
            simp only [step2, if_neg ht, htv] at hrun
            simp at hrun
            have hres := ih _ _ hok hrun
            rw [requestChunks, hres]
        · simp [step2, if_neg ht, htv] at hrun
      | disconnect =>
        simp [step2, if_neg ht] at hrun

/-- C2: byte fidelity of the outbound path.  If the chunks delivered to the
loop's `request` case are exactly the chunks the input pump read from local
input (in order), every connection write succeeds, and the loop processes
the whole trace, then — in either client variant — the bytes written to the
connection, concatenated, equal the bytes read from local input,
concatenated: no loss, no reordering, no duplication. -/
theorem c2_byte_fidelity (T : Nat) (reads : List ReadResult) (es : List (Nat × Ev))
    (hok : requestsOk es = true)
    (hchunks : requestChunks es = sentChunks (readInputData reads)) :
    (∀ s, run1 T initSt es = Outcome.running s →
        s.writes = sentChunks (readInputData reads) ∧
        s.writes.flatten = (sentChunks (readInputData reads)).flatten) ∧
    (∀ s, run2 T initSt es = Outcome.running s →
        s.writes = sentChunks (readInputData reads) ∧
        s.writes.flatten = (sentChunks (readInputData reads)).flatten) := by
  constructor
  · intro s hrun
    have h := run1_writes T es initSt s hok hrun
    rw [initSt] at h
    simp at h
    rw [h, hchunks]
    exact ⟨rfl, rfl⟩
  · intro s hrun
    have h := run2_writes T es initSt s hok hrun
    rw [initSt] at h
    simp at h
    rw [h, hchunks]
    exact ⟨rfl, rfl⟩

/-- C2 witness: a concrete two-chunk input relayed by both variants. -/
theorem c2_byte_fidelity_witness :
    requestsOk [(0, Ev.request ['h', 'i'] true), (3, Ev.request ['y', 'o'] true), (5, Ev.done)] = true ∧
    requestChunks [(0, Ev.request ['h', 'i'] true), (3, Ev.request ['y', 'o'] true), (5, Ev.done)] =
      sentChunks (readInputData [ReadResult.chunk ['h', 'i'], ReadResult.chunk ['y', 'o'], ReadResult.eofRead]) ∧
    (run1 7 initSt [(0, Ev.request ['h', 'i'] true), (3, Ev.request ['y', 'o'] true), (5, Ev.done)] =
      Outcome.running ⟨true, false, false, 0, 5, [['h', 'i'], ['y', 'o']], []⟩) ∧
    St.writes ⟨true, false, false, 0, 5, [['h', 'i'], ['y', 'o']], []⟩ =
      sentChunks (readInputData [ReadResult.chunk ['h', 'i'], ReadResult.chunk ['y', 'o'], ReadResult.eofRead]) :=
  ⟨by decide, by decide, by decide,
   ((c2_byte_fidelity 7
      [ReadResult.chunk ['h', 'i'], ReadResult.chunk ['y', 'o'], ReadResult.eofRead]
      [(0, Ev.request ['h', 'i'] true), (3, Ev.request ['y', 'o'] true), (5, Ev.done)]
      (by decide) (by decide)).1
      ⟨true, false, false, 0, 5, [['h', 'i'], ['y', 'o']], []⟩ (by decide)).1⟩

/-!
## Connection close discipline (C4) and fatal-log paths (C7, C8)
-/

/-- C4: on every terminal path of the event loop — close-by-timeout,
close-by-disconnect, close-by-write-error (and, in the flag-based variant,
the closing-stop paths) — the deferred `connection.Close()` of the
orchestrator runs exactly once, and neither pump ever performs a
connection close. -/
theorem c4_close_once :
    (∀ (T : Nat) (hs : Bool) (es : List (Nat × Ev)) (e : Exit) (c : Nat) (s : St) (t : Nat),
        processData1 T hs es = ProcOutcome.finished e c s t → c = 1) ∧
    (∀ (T : Nat) (hs : Bool) (es : List (Nat × Ev)) (e : Exit) (c : Nat) (s : St) (t : Nat),
        processData2 T hs es = ProcOutcome.finished e c s t → c = 1) ∧
    (∀ reads, PumpAct.closeConn ∉ readInputData reads ∧
        PumpAct.closeConn ∉ readServerData reads) := by
  refine ⟨?_, ?_, ?_⟩
  · intro T hs es e c s t h
    cases hs with
    | false => simp [processData1] at h
    | true =>
      simp only [processData1, Bool.not_true] at h
      simp only [Bool.false_eq_true, if_false] at h
      cases hrun : run1 T initSt es with
      | running s1 => rw [hrun] at h; exact ProcOutcome.noConfusion h
      | exited e1 s1 t1 =>
        rw [hrun] at h
        injection h with h1 h2 h3 h4
        exact h2.symm
      | invalid => rw [hrun] at h; exact ProcOutcome.noConfusion h
  · intro T hs es e c s t h
    cases hs with
    | false => simp [processData2] at h
    | true =>
      simp only [processData2, Bool.not_true] at h
      simp only [Bool.false_eq_true, if_false] at h
      cases hrun : run2 T initSt es with
      | running s1 => rw [hrun] at h; exact ProcOutcome.noConfusion h
      | exited e1 s1 t1 =>
        rw [hrun] at h
        injection h with h1 h2 h3 h4
        exact h2.symm
      | invalid => rw [hrun] at h; exact ProcOutcome.noConfusion h
  · intro reads
    induction reads with
    | nil => exact ⟨by decide, by decide⟩
    | cons r rest ih =>
      cases r with
      | chunk c =>
        constructor
        · intro hm
          rcases List.mem_cons.mp hm with h | h
          · exact PumpAct.noConfusion h
          · exact ih.1 h
        · intro hm
          rcases List.mem_cons.mp hm with h | h
          · exact PumpAct.noConfusion h
          · exact ih.2 h
      | eofRead =>
        exact ⟨by rw [readInputData]; decide, by rw [readServerData]; decide⟩
      | errRead =>
        exact ⟨by rw [readInputData]; decide, by rw [readServerData]; decide⟩

/-- C4 witness: a concrete disconnect-terminated session closes the
connection exactly once. -/
theorem c4_close_once_witness :
    processData1 1 true [(0, Ev.disconnect)] =
      ProcOutcome.finished Exit.serverDisconnected 1 initSt 0 ∧
    (1 : Nat) = 1 :=
  ⟨by decide,
   c4_close_once.1 1 true [(0, Ev.disconnect)] Exit.serverDisconnected 1 initSt 0 (by decide)⟩

/-- C7 counterexample: when the handshake write fails, `log.Fatalf`
terminates the process without running the deferred `connection.Close()`
(the close count is 0, not 1), so "the connection is closed" fails; the
event loop is indeed never entered. -/
theorem c7_counterexample :
    closesOf (processData1 1000 false [(0, Ev.disconnect)]) = 0 ∧
    closesOf (processData2 1000 false [(0, Ev.disconnect)]) = 0 ∧
    processData1 1000 false [(0, Ev.disconnect)] = ProcOutcome.fatalExit 0 false ∧
    processData2 1000 false [(0, Ev.disconnect)] = ProcOutcome.fatalExit 0 false := by
  decide

/-- C7 (amended): if the handshake write fails, the failure is fatal — the
process exits immediately via `log.Fatalf` — and the event loop is never
entered; but the deferred close is skipped by the fatal exit, so the
orchestrator itself never closes the connection. -/
theorem c7_amended_thm : ∀ (T : Nat) (es : List (Nat × Ev)),
    processData1 T false es = ProcOutcome.fatalExit 0 false ∧
    processData2 T false es = ProcOutcome.fatalExit 0 false := by
  intro T es
  exact ⟨rfl, rfl⟩

/-- C8 counterexample: on a non-EOF read error the input pump performs a
fatal log — which terminates the whole process — and its behaviour is not
that of end-of-input (no end-of-input signal is emitted). -/
theorem c8_counterexample :
    PumpAct.fatalLog ∈ readInputData [ReadResult.errRead] ∧
    readInputData [ReadResult.errRead] ≠ readInputData [ReadResult.eofRead] := by
  decide

/-- C8 (amended): if reading local input fails with a non-EOF error, the
input pump forwards the chunks read so far and then calls `log.Fatalf`,
which terminates the entire process immediately; the error is not treated
as end-of-input and the session does not proceed toward `Closed` through
the state machine. -/
theorem c8_amended_thm : ∀ (cs : List (List Char)),
    readInputData (cs.map ReadResult.chunk ++ [ReadResult.errRead]) =
      cs.map PumpAct.sendChunk ++ [PumpAct.fatalLog] := by
  intro cs
  induction cs with
  | nil => rfl
  | cons c rest ih =>
    simp only [List.map_cons, List.cons_append, readInputData, List.append_eq, ih]

/-!
## Temporal behaviour after end of input (C3, C5) and the closing flag (C10)
-/

theorem runLoop_cons_of_step (step : St → Nat × Ev → Outcome) (s s2 : St)
    (ev : Nat × Ev) (rest : List (Nat × Ev)) (h : step s ev = Outcome.running s2) :
    runLoop step s (ev :: rest) = runLoop step s2 rest := by
  simp only [runLoop, h]

theorem runLoop_cons_of_exit (step : St → Nat × Ev → Outcome) (s s2 : St) (e2 : Exit)
    (t2 : Nat) (ev : Nat × Ev) (rest : List (Nat × Ev))
    (h : step s ev = Outcome.exited e2 s2 t2) :
    runLoop step s (ev :: rest) = Outcome.exited e2 s2 t2 := by
  simp only [runLoop, h]

/-- The scenario-D trace: end of input at `t = 0`, one inbound chunk at
`t = 100`, then `n` further deliveries of the (reset) 200 ms ticker at
`t = 300, 500, …`. -/
def c3ticks : Nat → Nat → List (Nat × Ev)
  | _, 0 => []
  | j, Nat.succ m => (100 + 200 * (j + 1), Ev.tick) :: c3ticks (j + 1) m

def c3trace (n : Nat) : List (Nat × Ev) :=
  (0, Ev.done) :: (100, Ev.response ['h']) :: c3ticks 0 n

/-- The loop state of the kingpin-based variant after scenario D's prefix
and `n` subsequent ticks: `somethingRead` is permanently set. -/
def c3stAt (n : Nat) : St :=
  ⟨true, true, false, 100, 100 + 200 * n, [], [['h']]⟩

theorem c3ticks_run (m : Nat) : ∀ (j : Nat),
    run1 200 (c3stAt j) (c3ticks j m) = Outcome.running (c3stAt (j + m)) := by
  induction m with
  | zero => intro j; simp [c3ticks, run1, runLoop]
  | succ m ih =>
    intro j
    have hstep : step1 200 (c3stAt j) (100 + 200 * (j + 1), Ev.tick) =
        Outcome.running (c3stAt (j + 1)) := by
      have htv : tickValid 200 ⟨true, true, false, 100, 100 + 200 * (j + 1), [], [['h']]⟩
          (100 + 200 * (j + 1)) = true := by
        simp [tickValid]
        omega
      simp [step1, c3stAt, if_neg (show ¬ (100 + 200 * (j + 1) < 100 + 200 * j) by omega), htv]
    rw [c3ticks]
    show runLoop (step1 200) (c3stAt j)
        ((100 + 200 * (j + 1), Ev.tick) :: c3ticks (j + 1) m) = _
    rw [runLoop_cons_of_step _ _ _ _ _ hstep]
    rw [show j + (m + 1) = (j + 1) + m by omega]
    exact ih (j + 1)

/-- C3 evidence: in scenario D (timeout 200 ms, EOF at 0 ms, one inbound
chunk at 100 ms, then silence), the kingpin-based variant relays the chunk,
resets the ticker, and is still running after the prefix and after every
subsequent ticker delivery — `somethingRead` is never cleared, so the
timeout branch can never fire and the session never closes; the flag-based
variant instead returns at 100 ms via the closing-read path, discarding the
chunk (outputs stay empty). -/
theorem c3_evidence :
    (∀ n, run1 200 initSt (c3trace n) = Outcome.running (c3stAt n)) ∧
    run2 200 initSt [(0, Ev.done), (100, Ev.response ['h'])] =
      Outcome.exited Exit.closingRead ⟨true, false, true, 0, 100, [], []⟩ 100 := by
  constructor
  · intro n
    have h1 : step1 200 initSt (0, Ev.done) =
        Outcome.running ⟨true, false, false, 0, 0, [], []⟩ := by decide
    have h2 : step1 200 ⟨true, false, false, 0, 0, [], []⟩ (100, Ev.response ['h']) =
        Outcome.running (c3stAt 0) := by decide
    show runLoop (step1 200) initSt
        ((0, Ev.done) :: (100, Ev.response ['h']) :: c3ticks 0 n) = _
    rw [runLoop_cons_of_step _ _ _ _ _ h1, runLoop_cons_of_step _ _ _ _ _ h2]
    have h3 := c3ticks_run n 0
    simpa [run1] using h3
  · decide

/-- Deliveries of the loop-start ticker before the EOF: ticks at
`T, 2T, …, nT`. -/
def preTicks (T : Nat) : Nat → List (Nat × Ev)
  | 0 => []
  | Nat.succ m => preTicks T m ++ [(T * (m + 1), Ev.tick)]

theorem preTicks_run1 (T : Nat) : ∀ (n : Nat) (rest : List (Nat × Ev)),
    run1 T initSt (preTicks T n ++ rest) =
      run1 T ⟨false, false, false, 0, T * n, [], []⟩ rest := by
  intro n
  induction n with
  | zero =>
    intro rest
    simp [preTicks, initSt]
  | succ m ih =>
    intro rest
    rw [preTicks, List.append_assoc, ih ([(T * (m + 1), Ev.tick)] ++ rest)]
    have hstep : step1 T ⟨false, false, false, 0, T * m, [], []⟩ (T * (m + 1), Ev.tick) =
        Outcome.running ⟨false, false, false, 0, T * (m + 1), [], []⟩ := by
      have hmono : T * m ≤ T * (m + 1) := Nat.mul_le_mul_left T (Nat.le_succ m)
      have htv : tickValid T ⟨false, false, false, 0, T * (m + 1), [], []⟩ (T * (m + 1)) = true := by
        have hone : T * 1 ≤ T * (m + 1) := Nat.mul_le_mul_left T (by omega)
        simp [tickValid]
        simpa using hone
      simp [step1, if_neg (show ¬ (T * (m + 1) < T * m) by omega), htv]
    show runLoop (step1 T) ⟨false, false, false, 0, T * m, [], []⟩
        ((T * (m + 1), Ev.tick) :: rest) = _
    rw [runLoop_cons_of_step _ _ _ _ _ hstep]
    rfl

theorem preTicks_run2 (T : Nat) : ∀ (n : Nat) (rest : List (Nat × Ev)),
    run2 T initSt (preTicks T n ++ rest) =
      run2 T ⟨false, false, false, 0, T * n, [], []⟩ rest := by
  intro n
  induction n with
  | zero =>
    intro rest
    simp [preTicks, initSt]
  | succ m ih =>
    intro rest
    rw [preTicks, List.append_assoc, ih ([(T * (m + 1), Ev.tick)] ++ rest)]
    have hstep : step2 T ⟨false, false, false, 0, T * m, [], []⟩ (T * (m + 1), Ev.tick) =
        Outcome.running ⟨false, false, false, 0, T * (m + 1), [], []⟩ := by
      have hmono : T * m ≤ T * (m + 1) := Nat.mul_le_mul_left T (Nat.le_succ m)
      have htv : tickValid T ⟨false, false, false, 0, T * (m + 1), [], []⟩ (T * (m + 1)) = true := by
        have hone : T * 1 ≤ T * (m + 1) := Nat.mul_le_mul_left T (by omega)
        simp [tickValid]
        simpa using hone
      simp [step2, if_neg (show ¬ (T * (m + 1) < T * m) by omega), htv]
    show runLoop (step2 T) ⟨false, false, false, 0, T * m, [], []⟩
        ((T * (m + 1), Ev.tick) :: rest) = _
    rw [runLoop_cons_of_step _ _ _ _ _ hstep]
    rfl

/-- C5 counterexample: with timeout 200 ms and the loop running since time
0, a session whose local input hits EOF at 199 ms closes via the
inactivity-timeout branch at the very next tick, 200 ms — only 1 ms after
the EOF, far earlier than EOF + 200 ms — in both variants.  The ticker is
never reset when the end-of-input signal is processed. -/
theorem c5_counterexample :
    run1 200 initSt [(199, Ev.done), (200, Ev.tick)] =
      Outcome.exited Exit.inactivityTimeout ⟨true, false, false, 0, 200, [], []⟩ 200 ∧
    run2 200 initSt [(199, Ev.done), (200, Ev.tick)] =
      Outcome.exited Exit.inactivityTimeout ⟨true, false, true, 0, 200, [], []⟩ 200 ∧
    200 - 199 < 200 := by
  decide

/-- C5 (amended): if local input reaches EOF at time `e` and the remote
sends nothing, both variants close via the inactivity-timeout branch at the
first delivery of the loop-start ticker after the EOF, `T * (e / T + 1)` —
which is within `T` of the EOF but can be arbitrarily close to it, because
the ticker runs on a fixed schedule from loop start and is not reset when
the end-of-input signal is processed. -/
theorem c5_amended_thm (e T : Nat) (hT : 0 < T) :
    run1 T initSt (preTicks T (e / T) ++ [(e, Ev.done), (T * (e / T + 1), Ev.tick)]) =
      Outcome.exited Exit.inactivityTimeout
        ⟨true, false, false, 0, T * (e / T + 1), [], []⟩ (T * (e / T + 1)) ∧
    run2 T initSt (preTicks T (e / T) ++ [(e, Ev.done), (T * (e / T + 1), Ev.tick)]) =
      Outcome.exited Exit.inactivityTimeout
        ⟨true, false, true, 0, T * (e / T + 1), [], []⟩ (T * (e / T + 1)) ∧
    e < T * (e / T + 1) ∧ T * (e / T + 1) ≤ e + T := by
  have hab : T * (e / T + 1) = T * (e / T) + T := by rw [Nat.mul_add, Nat.mul_one]
  have harith : e < T * (e / T) + T ∧ T * (e / T) + T ≤ e + T := by
    have h1 : T * (e / T) + e % T = e := Nat.div_add_mod e T
    have h2 : e % T < T := Nat.mod_lt e hT
    generalize hA : T * (e / T) = A
    rw [hA] at h1
    omega
  have harith1 : e < T * (e / T + 1) := by rw [hab]; exact harith.1
  have harith2 : T * (e / T + 1) ≤ e + T := by rw [hab]; exact harith.2
  have hone : T * 1 ≤ T * (e / T + 1) :=
    Nat.mul_le_mul_left T (Nat.succ_le_succ (Nat.zero_le (e / T)))
  refine ⟨?_, ?_, harith1, harith2⟩
  · rw [preTicks_run1 T (e / T) [(e, Ev.done), (T * (e / T + 1), Ev.tick)]]
    have hstep1 : step1 T ⟨false, false, false, 0, T * (e / T), [], []⟩ (e, Ev.done) =
        Outcome.running ⟨true, false, false, 0, e, [], []⟩ := by
      simp [step1, if_neg (show ¬ (e < T * (e / T)) by omega)]
    have hstep2 : step1 T ⟨true, false, false, 0, e, [], []⟩ (T * (e / T + 1), Ev.tick) =
        Outcome.exited Exit.inactivityTimeout
          ⟨true, false, false, 0, T * (e / T + 1), [], []⟩ (T * (e / T + 1)) := by
      have htv : tickValid T ⟨true, false, false, 0, T * (e / T + 1), [], []⟩
          (T * (e / T + 1)) = true := by
        simp [tickValid]
        simpa using hone
      simp [step1, if_neg (show ¬ (T * (e / T + 1) < e) by omega), htv]
    show runLoop (step1 T) ⟨false, false, false, 0, T * (e / T), [], []⟩
        ((e, Ev.done) :: [(T * (e / T + 1), Ev.tick)]) = _
    rw [runLoop_cons_of_step _ _ _ _ _ hstep1]
    rw [runLoop_cons_of_exit _ _ _ _ _ _ _ hstep2]
  · rw [preTicks_run2 T (e / T) [(e, Ev.done), (T * (e / T + 1), Ev.tick)]]
    have hstep1 : step2 T ⟨false, false, false, 0, T * (e / T), [], []⟩ (e, Ev.done) =
        Outcome.running ⟨true, false, true, 0, e, [], []⟩ := by
      simp [step2, if_neg (show ¬ (e < T * (e / T)) by omega)]
    have hstep2 : step2 T ⟨true, false, true, 0, e, [], []⟩ (T * (e / T + 1), Ev.tick) =
        Outcome.exited Exit.inactivityTimeout
          ⟨true, false, true, 0, T * (e / T + 1), [], []⟩ (T * (e / T + 1)) := by
      have htv : tickValid T ⟨true, false, true, 0, T * (e / T + 1), [], []⟩
          (T * (e / T + 1)) = true := by
        simp [tickValid]
        simpa using hone
      simp [step2, if_neg (show ¬ (T * (e / T + 1) < e) by omega), htv]
    show runLoop (step2 T) ⟨false, false, false, 0, T * (e / T), [], []⟩
        ((e, Ev.done) :: [(T * (e / T + 1), Ev.tick)]) = _
    rw [runLoop_cons_of_step _ _ _ _ _ hstep1]
    rw [runLoop_cons_of_exit _ _ _ _ _ _ _ hstep2]

/-- C5 witness: the amended statement at EOF time 100 ms, timeout 200 ms:
the session closes at tick 200 ms. -/
theorem c5_amended_witness :
    0 < 200 ∧
    (run1 200 initSt (preTicks 200 (100 / 200) ++ [(100, Ev.done), (200 * (100 / 200 + 1), Ev.tick)]) =
      Outcome.exited Exit.inactivityTimeout
        ⟨true, false, false, 0, 200 * (100 / 200 + 1), [], []⟩ (200 * (100 / 200 + 1)) ∧
    run2 200 initSt (preTicks 200 (100 / 200) ++ [(100, Ev.done), (200 * (100 / 200 + 1), Ev.tick)]) =
      Outcome.exited Exit.inactivityTimeout
        ⟨true, false, true, 0, 200 * (100 / 200 + 1), [], []⟩ (200 * (100 / 200 + 1)) ∧
    100 < 200 * (100 / 200 + 1) ∧ 200 * (100 / 200 + 1) ≤ 100 + 200) :=
  ⟨by decide, c5_amended_thm 100 200 (by decide)⟩

/-- With the `closing` flag set, one step of the flag-based loop either
returns immediately (carrying the state unchanged apart from the clock), or
keeps looping without touching local output and with `closing` still set,
or rejects an invalid event time. -/
theorem step2_closing (T : Nat) (s : St) (hcl : s.closing = true) (t : Nat) (e : Ev) :
    (∃ e2, step2 T s (t, e) = Outcome.exited e2 { s with now := t } t) ∨
    (∃ s2, step2 T s (t, e) = Outcome.running s2 ∧
        s2.outputs = s.outputs ∧ s2.closing = true) ∨
    step2 T s (t, e) = Outcome.invalid := by
  obtain ⟨aem, sr, cl, ts, n, w, outs⟩ := s
  replace hcl : cl = true := hcl
  subst hcl
  by_cases ht : t < n
  · right; right
    cases e <;> simp [step2, if_pos ht]
  · cases e with
    | request c wOk =>
      left
      exact ⟨Exit.closingWrite, by simp [step2, if_neg ht]⟩
    | done =>
      right; left
      exact ⟨⟨true, sr, true, ts, t, w, outs⟩, by simp [step2, if_neg ht], rfl, rfl⟩
    | response c =>
      left
      exact ⟨Exit.closingRead, by simp [step2, if_neg ht]⟩
    | tick =>
      by_cases htv : tickValid T ⟨aem, sr, true, ts, t, w, outs⟩ t = true
      · by_cases hfire : (aem && !sr) = true
        · left
          exact ⟨Exit.inactivityTimeout, by simp [step2, if_neg ht, htv, hfire]⟩
        · right; left
          exact ⟨⟨aem, sr, true, ts, t, w, outs⟩,
            by simp [step2, if_neg ht, htv, hfire], rfl, rfl⟩
      · right; right
        simp [step2, if_neg ht, htv]
    | disconnect =>
      left
      exact ⟨Exit.serverDisconnected, by simp [step2, if_neg ht]⟩

/-- Once `closing` is set, no continuation of the flag-based loop ever
appends to local output. -/
theorem run2_frozen (T : Nat) : ∀ (es : List (Nat × Ev)) (s : St), s.closing = true →
    (∀ s2, run2 T s es = Outcome.running s2 →
        s2.outputs = s.outputs ∧ s2.closing = true) ∧
    (∀ e2 s2 t2, run2 T s es = Outcome.exited e2 s2 t2 → s2.outputs = s.outputs) := by
  intro es
  induction es with
  | nil =>
    intro s hcl
    constructor
    · intro s2 hrun
      simp only [run2, runLoop] at hrun
      injection hrun with h
      rw [← h]
      exact ⟨rfl, hcl⟩
    · intro e2 s2 t2 hrun
      simp only [run2, runLoop] at hrun
      exact Outcome.noConfusion hrun
  | cons ev rest ih =>
    obtain ⟨t, e⟩ := ev
    intro s hcl
    rcases step2_closing T s hcl t e with ⟨e2, hst⟩ | ⟨sm, hst, hout, hclm⟩ | hst
    · have hrun2 : run2 T s ((t, e) :: rest) = Outcome.exited e2 { s with now := t } t :=
        runLoop_cons_of_exit _ _ _ _ _ _ _ hst
      constructor
      · intro s2 hrun
        rw [hrun2] at hrun
        exact Outcome.noConfusion hrun
      · intro e3 s2 t2 hrun
        rw [hrun2] at hrun
        injection hrun with h1 h2 h3
        rw [← h2]
    · have hrun2 : run2 T s ((t, e) :: rest) = run2 T sm rest :=
        runLoop_cons_of_step _ _ _ _ _ hst
      constructor
      · intro s2 hrun
        rw [hrun2] at hrun
        have hres := (ih sm hclm).1 s2 hrun
        exact ⟨hres.1.trans hout, hres.2⟩
      · intro e3 s2 t2 hrun
        rw [hrun2] at hrun
        have hres := (ih sm hclm).2 e3 s2 t2 hrun
        exact hres.trans hout
    · have hrun2 : run2 T s ((t, e) :: rest) = Outcome.invalid := by
        show runLoop (step2 T) s ((t, e) :: rest) = Outcome.invalid
        simp only [runLoop, hst]
      constructor
      · intro s2 hrun
        rw [hrun2] at hrun
        exact Outcome.noConfusion hrun
      · intro e3 s2 t2 hrun
        rw [hrun2] at hrun
        exact Outcome.noConfusion hrun

/-- C10: in the flag-based variant, once the end-of-input signal has been
processed (which sets `closing`), no subsequently received inbound chunk is
ever written to local output: every continuation of the loop leaves the
output list untouched, and an inbound chunk arriving while `closing` is set
terminates the loop immediately via the closing-read path instead of
relaying the data. -/
theorem c10_closing_discards (T : Nat) (s : St) (hcl : s.closing = true) :
    (∀ es s2, run2 T s es = Outcome.running s2 → s2.outputs = s.outputs) ∧
    (∀ es e2 s2 t2, run2 T s es = Outcome.exited e2 s2 t2 → s2.outputs = s.outputs) ∧
    (∀ (s0 : St) (t0 : Nat), s0.now ≤ t0 →
        step2 T s0 (t0, Ev.done) =
          Outcome.running { s0 with afterEOFMode := true, closing := true, now := t0 }) ∧
    (∀ t c es, s.now ≤ t →
        run2 T s ((t, Ev.response c) :: es) =
          Outcome.exited Exit.closingRead { s with now := t } t) := by
  refine ⟨fun es s2 h => ((run2_frozen T es s hcl).1 s2 h).1,
          fun es e2 s2 t2 h => (run2_frozen T es s hcl).2 e2 s2 t2 h, ?_, ?_⟩
  · intro s0 t0 hle
    obtain ⟨aem, sr, cl, ts, n, w, outs⟩ := s0
    replace hle : n ≤ t0 := hle
    simp [step2, if_neg (show ¬ t0 < n by omega)]
  · intro t c es hle
    have hst : step2 T s (t, Ev.response c) =
        Outcome.exited Exit.closingRead { s with now := t } t := by
      obtain ⟨aem, sr, cl, ts, n, w, outs⟩ := s
      replace hcl : cl = true := hcl
      subst hcl
      replace hle : n ≤ t := hle
      simp [step2, if_neg (show ¬ t < n by omega)]
    exact runLoop_cons_of_exit _ _ _ _ _ _ _ hst

/-- C10 witness: with `closing` already set, a concrete inbound chunk at
time 3 terminates the loop via the closing-read path without being written
to the (empty) output. -/
theorem c10_closing_discards_witness :
    (⟨false, false, true, 0, 0, [], []⟩ : St).closing = true ∧
    run2 5 ⟨false, false, true, 0, 0, [], []⟩ [(3, Ev.response ['h'])] =
      Outcome.exited Exit.closingRead ⟨false, false, true, 0, 3, [], []⟩ 3 :=
  ⟨rfl, (c10_closing_discards 5 ⟨false, false, true, 0, 0, [], []⟩ rfl).2.2.2
    3 ['h'] [] (by decide)⟩
